import Mathlib

/-!
Verification of the MinCPU UART upload protocol
(src/Software/uart_loader.py), shallowly embedded in Lean 4.

Bytes are modelled as Fin 256.  The serial transport is modelled by its
observable behaviour: the sequence of write/read operations performed
(a trace of events) together with the bytes, if any, that the device
makes available to each read.  Stateful Python code becomes explicit
trace-producing functions; Python exceptions become Option/Except.
-/

namespace MinCPU

abbrev Byte := Fin 256

/-- Protocol constants from MinCPUUARTLoader.__init__ . -/
def MAGIC_WORD : Nat := 0xDEADBEEF

def SUCCESS_CODE : Byte := 0xAA

def ERROR_CODE : Byte := 0xFF

def DEFAULT_LOAD_ADDR : Nat := 0x1000

/-- Chunk size used by send_program_data . -/
def CHUNK_SIZE : Nat := 64

def natToByte (v : Nat) : Byte := ⟨v % 256, Nat.mod_lt _ (by norm_num)⟩

/-- Embedding of struct.pack with format <I : the 4-byte little-endian
encoding of a 32-bit value, used by send_magic_word, send_program_size
and send_load_address . -/
def encodeU32LE (v : Nat) : List Byte :=
  [natToByte v, natToByte (v / 2 ^ 8), natToByte (v / 2 ^ 16), natToByte (v / 2 ^ 24)]

/-- Little-endian value of a 4-byte frame (struct.unpack with <I). -/
def decodeU32LE (bs : List Byte) : Nat :=
  match bs with
  | [b0, b1, b2, b3] => b0.val + 2 ^ 8 * b1.val + 2 ^ 16 * b2.val + 2 ^ 24 * b3.val
  | _ => 0

/-- Embedding of the padding loop of upload_program (lines 166-167):
while len(program_data) % 4 != 0: program_data += b.00 . -/
def padToWord (data : List Byte) : List Byte :=
  if data.length % 4 = 0 then data
  else padToWord (data ++ [0])
termination_by (4 - data.length % 4) % 4
decreasing_by
  simp only [List.length_append, List.length_cons, List.length_nil]
  omega

/-- One observable operation on the serial transport: a write of a byte
string, the blocking one-byte status read of receive_byte, or the
bounded read of up to n bytes used by test_connection . -/
inductive Event where
  | write (bs : List Byte)
  | readStatus
  | readBytes (n : Nat)
deriving DecidableEq

/-- The chunk decomposition performed by the loop of send_program_data :
for i in range(0, len(data), 64): chunk = data[i:i+64] . -/
def chunksOf (data : List Byte) : List (List Byte) :=
  if data.length = 0 then []
  else data.take CHUNK_SIZE :: chunksOf (data.drop CHUNK_SIZE)
termination_by data.length
decreasing_by
  simp only [List.length_drop, CHUNK_SIZE]
  omega

/-- Progress indication computed inside the chunk loop of
send_program_data (line 109): (i + len(chunk)) / len(data) * 100.
Pythons division by zero raises; it is modelled as none.  (The Python
value is a float; only its definedness matters here, so the value is
kept as the corresponding Nat.) -/
def progressOf (i chunkLen total : Nat) : Option Nat :=
  if total = 0 then none else some ((i + chunkLen) * 100 / total)

/-- Embedding of the loop of send_program_data (lines 104-113):
for i in range(0, len(data), chunk_size): slice a chunk, write it and
compute the progress value.  Returns the list of write events, or none
if a progress computation divides by zero. -/
def sendChunksLoop (data : List Byte) (i : Nat) : Option (List Event) :=
  if i < data.length then
    (progressOf i ((data.drop i).take CHUNK_SIZE).length data.length).bind fun _ =>
      (sendChunksLoop data (i + CHUNK_SIZE)).map fun rest =>
        Event.write ((data.drop i).take CHUNK_SIZE) :: rest
  else some []
termination_by data.length - i
decreasing_by
  simp only [CHUNK_SIZE]
  omega

/-- send_program_data (lines 98-115): the loop starting at offset 0. -/
def sendProgramData (data : List Byte) : Option (List Event) :=
  sendChunksLoop data 0

/-- send_magic_word (lines 77-82). -/
def sendMagicWord : List Event := [Event.write (encodeU32LE MAGIC_WORD)]

/-- send_program_size (lines 84-89). -/
def sendProgramSize (size : Nat) : List Event := [Event.write (encodeU32LE size)]

/-- send_load_address (lines 91-96). -/
def sendLoadAddress (address : Nat) : List Event := [Event.write (encodeU32LE address)]

/-- receive_byte (lines 66-75): read one byte from the transport; if no
byte arrives within the timeout the Python code raises, modelled as the
error case.  The transport outcome is the byte made available by the
device within the timeout, if any. -/
def receiveByte (avail : Option Byte) : Except String Byte :=
  match avail with
  | some b => Except.ok b
  | none => Except.error "Timeout waiting for response"

/-- The four syntactically distinct outcome branches of
wait_for_response (lines 117-133), distinguished in the source by their
log messages: success (0xAA), explicit device error (0xFF), any other
byte, and the timeout exception path. -/
inductive Status where
  | success
  | deviceRejected
  | unexpectedStatus
  | timeout
deriving DecidableEq

/-- wait_for_response (lines 117-133): classify the transport outcome
and produce the boolean the function returns to its caller. -/
def waitForResponse (avail : Option Byte) : Status × Bool :=
  match receiveByte avail with
  | Except.ok response =>
    if response = SUCCESS_CODE then (Status.success, true)
    else if response = ERROR_CODE then (Status.deviceRejected, false)
    else (Status.unexpectedStatus, false)
  | Except.error _ => (Status.timeout, false)

/-- upload_program (lines 147-194).  load_binary_file is I/O and is
modelled by the caller-supplied image bytes; load_address None selects
DEFAULT_LOAD_ADDR; the image is padded to a word boundary and the
protocol sequence magic word, size, address, data, response runs in
program order.  resp is the status byte the device makes available to
the final read, if any.  Result: the boolean upload_program returns,
paired with the trace of transport operations performed.  If
send_program_data raised (none), the exception handler of
upload_program returns False (the status read never happens). -/
def uploadProgram (image : List Byte) (loadAddress : Option Nat) (resp : Option Byte) :
    Bool × List Event :=
  let addr := loadAddress.getD DEFAULT_LOAD_ADDR
  let programData := padToWord image
  let headerEvents := sendMagicWord ++ sendProgramSize programData.length ++
    sendLoadAddress addr
  match sendProgramData programData with
  | none => (false, headerEvents)
  | some dataEvents =>
    ((waitForResponse resp).2, headerEvents ++ dataEvents ++ [Event.readStatus])

/-- The probe bytes of test_connection (line 201): AT CR LF. -/
def TEST_DATA : List Byte := [0x41, 0x54, 0x0D, 0x0A]

/-- test_connection (lines 196-219): write the probe, read up to 100
bytes; both the any-reply branch and the empty-reply branch return
True, exactly as in the source.  response is whatever the device
returned within the one-second window. -/
def testConnection (response : List Byte) : Bool × List Event :=
  let events := [Event.write TEST_DATA, Event.readBytes 100]
  if response.length > 0 then (true, events) else (true, events)

/-- connect (lines 35-50): opening the serial port either succeeds or
raises SerialException, in which case connect returns False.  The
outcome of the underlying open call is the parameter. -/
def connect (openOk : Bool) : Bool := openOk

/-- The distinct terminal paths of main (lines 221-260): the connect
failure exit (line 238-239, before any protocol traffic) versus
completion of the upload attempt with the boolean upload_program
returned. -/
inductive SessionResult where
  | transportUnavailable
  | uploadResult (ok : Bool)
deriving DecidableEq

/-- The upload path of main (lines 236-251, without --test): connect,
then upload.  If connect fails, main exits at once (sys.exit(1))
without touching the protocol; otherwise the upload runs and its
verdict is the result. -/
def runMain (openOk : Bool) (image : List Byte) (loadAddress : Option Nat)
    (resp : Option Byte) : SessionResult × List Event :=
  if connect openOk then
    let r := uploadProgram image loadAddress resp
    (SessionResult.uploadResult r.1, r.2)
  else (SessionResult.transportUnavailable, [])

/-- Projection of a transport trace to the byte strings written, in
order. -/
def writesOf (t : List Event) : List (List Byte) :=
  t.filterMap fun e =>
    match e with
    | Event.write bs => some bs
    | _ => none

/-- Projection of a transport trace to its read operations, in order. -/
def readsOf (t : List Event) : List Event :=
  t.filter fun e =>
    match e with
    | Event.write _ => false
    | _ => true

/-- A concrete 10-byte program image for the concrete upload scenario. -/
def img10 : List Byte := [0x13, 0x01, 0x02, 0x03, 0x93, 0x05, 0x06, 0x07, 0x17, 0x09]

/-! Helper lemmas shared by the claim theorems. -/

theorem padToWord_eq_append (data : List Byte) :
    padToWord data = data ++ List.replicate ((4 - data.length % 4) % 4) 0 := by
  rw [padToWord]
  split
  · next h =>
    have hz : (4 - data.length % 4) % 4 = 0 := by omega
    rw [hz]
    simp
  · next h =>
    rw [padToWord_eq_append (data ++ [0])]
    have hcount : (4 - data.length % 4) % 4 =
        (4 - (data ++ [(0 : Byte)]).length % 4) % 4 + 1 := by
      simp only [List.length_append, List.length_cons, List.length_nil]
      omega
    rw [hcount, List.append_assoc]
    congr 1
termination_by (4 - data.length % 4) % 4
decreasing_by
  simp only [List.length_append, List.length_cons, List.length_nil]
  omega

theorem padToWord_length (data : List Byte) :
    (padToWord data).length = data.length + (4 - data.length % 4) % 4 := by
  rw [padToWord_eq_append]
  simp

theorem chunksOf_nil : chunksOf [] = [] := by
  rw [chunksOf]
  simp

theorem chunksOf_pos (data : List Byte) (h : data.length ≠ 0) :
    chunksOf data = data.take CHUNK_SIZE :: chunksOf (data.drop CHUNK_SIZE) := by
  rw [chunksOf]
  simp [h]

theorem chunksOf_flatten (data : List Byte) : (chunksOf data).flatten = data := by
  rw [chunksOf]
  split
  · next h =>
    simp only [List.flatten_nil]
    exact (List.eq_nil_of_length_eq_zero h).symm
  · next h =>
    rw [List.flatten_cons, chunksOf_flatten (data.drop CHUNK_SIZE),
      List.take_append_drop]
termination_by data.length
decreasing_by
  simp only [List.length_drop, CHUNK_SIZE]
  omega

theorem chunksOf_length (data : List Byte) :
    (chunksOf data).length = (data.length + (CHUNK_SIZE - 1)) / CHUNK_SIZE := by
  rw [chunksOf]
  split
  · next h =>
    rw [h]
    simp [CHUNK_SIZE]
  · next h =>
    rw [List.length_cons, chunksOf_length (data.drop CHUNK_SIZE)]
    simp only [List.length_drop, CHUNK_SIZE]
    omega
termination_by data.length
decreasing_by
  simp only [List.length_drop, CHUNK_SIZE]
  omega

theorem chunksOf_dropLast_sizes (data : List Byte) :
    ∀ c ∈ (chunksOf data).dropLast, c.length = CHUNK_SIZE := by
  intro c hc
  by_cases h : data.length = 0
  · rw [List.eq_nil_of_length_eq_zero h, chunksOf_nil] at hc
    simp at hc
  · rw [chunksOf_pos data h] at hc
    by_cases htail : (data.drop CHUNK_SIZE).length = 0
    · rw [List.eq_nil_of_length_eq_zero htail, chunksOf_nil] at hc
      simp at hc
    · have hne : chunksOf (data.drop CHUNK_SIZE) ≠ [] := by
        rw [chunksOf_pos _ htail]
        simp
      rw [List.dropLast_cons_of_ne_nil hne] at hc
      rcases List.mem_cons.mp hc with hc | hc
      · subst hc
        simp only [List.length_drop] at htail
        simp only [List.length_take, CHUNK_SIZE] at *
        omega
      · exact chunksOf_dropLast_sizes (data.drop CHUNK_SIZE) c hc
termination_by data.length
decreasing_by
  simp only [List.length_drop, CHUNK_SIZE]
  omega

theorem chunksOf_getLast? (data : List Byte) (c : List Byte)
    (hc : (chunksOf data).getLast? = some c) :
    c.length = if data.length % CHUNK_SIZE = 0 then CHUNK_SIZE
               else data.length % CHUNK_SIZE := by
  by_cases h : data.length = 0
  · rw [List.eq_nil_of_length_eq_zero h, chunksOf_nil] at hc
    simp at hc
  · rw [chunksOf_pos data h] at hc
    by_cases htail : (data.drop CHUNK_SIZE).length = 0
    · have hnil : chunksOf (data.drop CHUNK_SIZE) = [] := by
        rw [List.eq_nil_of_length_eq_zero htail, chunksOf_nil]
      rw [hnil] at hc
      simp only [List.getLast?_singleton, Option.some.injEq] at hc
      subst hc
      simp only [List.length_drop] at htail
      rw [List.length_take]
      split
      · next hmod =>
        simp only [CHUNK_SIZE] at *
        omega
      · next hmod =>
        simp only [CHUNK_SIZE] at *
        omega
    · have hne : chunksOf (data.drop CHUNK_SIZE) ≠ [] := by
        rw [chunksOf_pos _ htail]
        simp
      rcases List.exists_cons_of_ne_nil hne with ⟨a, t, hat⟩
      rw [hat, List.getLast?_cons_cons, ← hat] at hc
      have hrec := chunksOf_getLast? (data.drop CHUNK_SIZE) c hc
      simp only [List.length_drop] at htail hrec
      have hmod : (data.length - CHUNK_SIZE) % CHUNK_SIZE = data.length % CHUNK_SIZE := by
        simp only [CHUNK_SIZE] at *
        omega
      rw [hmod] at hrec
      exact hrec
termination_by data.length
decreasing_by
  simp only [List.length_drop, CHUNK_SIZE]
  omega

theorem sendChunksLoop_eq (data : List Byte) (i : Nat) (hd : data.length ≠ 0) :
    sendChunksLoop data i = some ((chunksOf (data.drop i)).map Event.write) := by
  rw [sendChunksLoop]
  by_cases h : i < data.length
  · rw [if_pos h]
    have hdrop : (data.drop i).length ≠ 0 := by
      simp only [List.length_drop]
      omega
    rw [sendChunksLoop_eq data (i + CHUNK_SIZE) hd]
    rw [chunksOf_pos _ hdrop]
    have hdd : (data.drop i).drop CHUNK_SIZE = data.drop (i + CHUNK_SIZE) := by
      rw [List.drop_drop]
    simp [progressOf, hd, hdd]
  · rw [if_neg h]
    have hnil : data.drop i = [] := by
      rw [List.drop_eq_nil_iff]
      omega
    rw [hnil, chunksOf_nil]
    simp
termination_by data.length - i
decreasing_by
  simp only [CHUNK_SIZE]
  omega

theorem sendProgramData_eq (data : List Byte) :
    sendProgramData data = some ((chunksOf data).map Event.write) := by
  by_cases h : data.length = 0
  · rw [List.eq_nil_of_length_eq_zero h, sendProgramData, sendChunksLoop, chunksOf_nil]
    simp
  · rw [sendProgramData, sendChunksLoop_eq data 0 h, List.drop_zero]

/-- The full observable behaviour of upload_program : the returned
boolean is the verdict of wait_for_response, and the transport trace is
the three header frames, the data chunks and the final status read, in
program order. -/
theorem uploadProgram_eq (image : List Byte) (loadAddress : Option Nat)
    (resp : Option Byte) :
    uploadProgram image loadAddress resp =
      ((waitForResponse resp).2,
        Event.write (encodeU32LE MAGIC_WORD)
          :: Event.write (encodeU32LE (padToWord image).length)
          :: Event.write (encodeU32LE (loadAddress.getD DEFAULT_LOAD_ADDR))
          :: ((chunksOf (padToWord image)).map Event.write ++ [Event.readStatus])) := by
  rw [uploadProgram]
  rw [sendProgramData_eq]
  simp [sendMagicWord, sendProgramSize, sendLoadAddress]

theorem writesOf_map_write (l : List (List Byte)) :
    writesOf (l.map Event.write) = l := by
  induction l with
  | nil => rfl
  | cons a t ih =>
    simp only [writesOf, List.map_cons, List.filterMap_cons] at *
    rw [ih]

theorem readsOf_map_write (l : List (List Byte)) :
    readsOf (l.map Event.write) = [] := by
  induction l with
  | nil => rfl
  | cons a t ih =>
    simp only [readsOf, List.map_cons, List.filter_cons] at *
    simp [ih]

theorem writesOf_trace (image : List Byte) (loadAddress : Option Nat)
    (resp : Option Byte) :
    writesOf (uploadProgram image loadAddress resp).2 =
      encodeU32LE MAGIC_WORD :: encodeU32LE (padToWord image).length
        :: encodeU32LE (loadAddress.getD DEFAULT_LOAD_ADDR)
        :: chunksOf (padToWord image) := by
  rw [uploadProgram_eq]
  have h := writesOf_map_write (chunksOf (padToWord image))
  simp only [writesOf, List.filterMap_append, List.filterMap_cons] at *
  rw [h]
  simp

theorem readsOf_trace (image : List Byte) (loadAddress : Option Nat)
    (resp : Option Byte) :
    readsOf (uploadProgram image loadAddress resp).2 = [Event.readStatus] := by
  rw [uploadProgram_eq]
  have h := readsOf_map_write (chunksOf (padToWord image))
  simp only [readsOf, List.filter_append, List.filter_cons] at *
  rw [h]
  simp

theorem getLast?_header_append (a b c : Event) (m : List Event) :
    (a :: b :: c :: (m ++ [Event.readStatus])).getLast? = some Event.readStatus := by
  rw [← List.cons_append, ← List.cons_append, ← List.cons_append, List.getLast?_concat]

/-! Claim theorems. -/

/-- C1: for every image of length L, the payload transmitted by
upload_program (the byte strings written after the three header frames,
concatenated) is the padded image, whose length is the smallest
multiple of 4 that is ≥ L, whose first L bytes are the original image
unchanged (nothing prepended), and whose remaining bytes are appended
zero padding. -/
theorem C1_padding_transmitted (image : List Byte) :
    (padToWord image).length % 4 = 0
    ∧ image.length ≤ (padToWord image).length
    ∧ (∀ m : Nat, m % 4 = 0 → image.length ≤ m → (padToWord image).length ≤ m)
    ∧ (padToWord image).take image.length = image
    ∧ (∀ b ∈ (padToWord image).drop image.length, b = 0)
    ∧ (∀ loadAddress resp,
        ((writesOf (uploadProgram image loadAddress resp).2).drop 3).flatten
          = padToWord image) := by
  refine ⟨?_, ?_, ?_, ?_, ?_, ?_⟩
  · rw [padToWord_length]
    omega
  · rw [padToWord_length]
    omega
  · intro m hm hlm
    rw [padToWord_length]
    omega
  · rw [padToWord_eq_append, List.take_left]
  · intro b hb
    rw [padToWord_eq_append, List.drop_left] at hb
    exact List.eq_of_mem_replicate hb
  · intro loadAddress resp
    rw [writesOf_trace]
    simp [chunksOf_flatten]

/-- C2: send_program_data splits the padded payload of length P into
exactly ceil(P / 64) chunks (none when P = 0); every chunk before the
last has size exactly 64; the last chunk has size P mod 64, or 64 when
P is a positive exact multiple of 64; and the chunks concatenate back
to exactly the payload. -/
theorem C2_chunking (data : List Byte) :
    sendProgramData data = some ((chunksOf data).map Event.write)
    ∧ (chunksOf data).length = (data.length + (CHUNK_SIZE - 1)) / CHUNK_SIZE
    ∧ (∀ c ∈ (chunksOf data).dropLast, c.length = CHUNK_SIZE)
    ∧ (∀ c, (chunksOf data).getLast? = some c →
        c.length = if data.length % CHUNK_SIZE = 0 then CHUNK_SIZE
                   else data.length % CHUNK_SIZE)
    ∧ (chunksOf data).flatten = data :=
  ⟨sendProgramData_eq data, chunksOf_length data, chunksOf_dropLast_sizes data,
    fun c hc => chunksOf_getLast? data c hc, chunksOf_flatten data⟩

/-- C3: in every run of upload_program the trace of transport
operations is exactly the magic-word write, then the length write, then
the load-address write, then the data-chunk writes in order, then the
single status read, which is the last operation and the only read: no
phase is skipped or reordered. -/
theorem C3_frame_order (image : List Byte) (loadAddress : Option Nat)
    (resp : Option Byte) :
    (uploadProgram image loadAddress resp).2 =
      Event.write (encodeU32LE MAGIC_WORD)
        :: Event.write (encodeU32LE (padToWord image).length)
        :: Event.write (encodeU32LE (loadAddress.getD DEFAULT_LOAD_ADDR))
        :: ((chunksOf (padToWord image)).map Event.write ++ [Event.readStatus])
    ∧ (uploadProgram image loadAddress resp).2.getLast? = some Event.readStatus
    ∧ readsOf (uploadProgram image loadAddress resp).2 = [Event.readStatus] := by
  refine ⟨?_, ?_, readsOf_trace image loadAddress resp⟩
  · rw [uploadProgram_eq]
  · rw [uploadProgram_eq]
    exact getLast?_header_append _ _ _ _

/-- C4: the interpretation of the final status by wait_for_response is
total and exhaustive over all transport outcomes, with four mutually
distinct branches: byte 0xAA is success, byte 0xFF is the explicit
device rejection, absence of a byte within the timeout is the timeout
branch, and any other byte is the unexpected-status branch. -/
theorem C4_status_mapping :
    (waitForResponse (some SUCCESS_CODE)).1 = Status.success
    ∧ (waitForResponse (some ERROR_CODE)).1 = Status.deviceRejected
    ∧ (waitForResponse none).1 = Status.timeout
    ∧ (∀ b : Byte, b ≠ SUCCESS_CODE → b ≠ ERROR_CODE →
        (waitForResponse (some b)).1 = Status.unexpectedStatus)
    ∧ (∀ o : Option Byte,
        (waitForResponse o).1 = Status.success
        ∨ (waitForResponse o).1 = Status.deviceRejected
        ∨ (waitForResponse o).1 = Status.timeout
        ∨ (waitForResponse o).1 = Status.unexpectedStatus)
    ∧ (Status.success ≠ Status.deviceRejected ∧ Status.success ≠ Status.timeout
        ∧ Status.success ≠ Status.unexpectedStatus
        ∧ Status.deviceRejected ≠ Status.timeout
        ∧ Status.deviceRejected ≠ Status.unexpectedStatus
        ∧ Status.timeout ≠ Status.unexpectedStatus) := by
  refine ⟨by decide, by decide, by decide, ?_, ?_, by decide⟩
  · intro b h1 h2
    simp [waitForResponse, receiveByte, h1, h2]
  · intro o
    match o with
    | none => simp [waitForResponse, receiveByte]
    | some b =>
      by_cases h1 : b = SUCCESS_CODE
      · simp [waitForResponse, receiveByte, h1]
      · by_cases h2 : b = ERROR_CODE <;> simp [waitForResponse, receiveByte, h1, h2]
        decide

/-- C5 counterexample: a timed-out read and an explicit device
rejection (byte 0xFF) are distinct outcome branches of
wait_for_response, yet upload_program returns the identical value
(False, with the identical trace) for both runs: the specific reason
does not surface in the result the caller receives, refuting the claim
that no failure is collapsed into an undifferentiated failure value. -/
theorem C5_counterexample_collapse :
    (waitForResponse none).1 ≠ (waitForResponse (some ERROR_CODE)).1
    ∧ uploadProgram img10 (some 0x1000) none
        = uploadProgram img10 (some 0x1000) (some ERROR_CODE) := by
  refine ⟨by decide, ?_⟩
  rw [uploadProgram_eq img10 (some 0x1000) none,
    uploadProgram_eq img10 (some 0x1000) (some ERROR_CODE)]
  congr 1

/-- C5 amended: every failure surfaces to the caller as the failure
verdict False (a run reports success only for the 0xAA status), the
session performs exactly one status read (no internal retry), and a
failed transport open yields the distinct connect-failure exit of main
before any upload traffic; but the specific failure reason is
distinguished only in the outcome branch (log output), not in the
undifferentiated boolean the caller receives. -/
theorem C5_failure_surfacing :
    (∀ o : Option Byte, (waitForResponse o).2 = true ↔ (waitForResponse o).1 = Status.success)
    ∧ (∀ image loadAddress resp,
        (uploadProgram image loadAddress resp).1 = (waitForResponse resp).2)
    ∧ (∀ image loadAddress resp,
        readsOf (uploadProgram image loadAddress resp).2 = [Event.readStatus])
    ∧ (∀ image loadAddress resp,
        (runMain false image loadAddress resp).1 = SessionResult.transportUnavailable) := by
  refine ⟨?_, ?_, fun i l r => readsOf_trace i l r, fun i l r => rfl⟩
  · intro o
    match o with
    | none => simp [waitForResponse, receiveByte]
    | some b =>
      by_cases h1 : b = SUCCESS_CODE
      · simp [waitForResponse, receiveByte, h1]
      · by_cases h2 : b = ERROR_CODE <;> simp [waitForResponse, receiveByte, h1, h2]
        decide
  · intro image loadAddress resp
    rw [uploadProgram_eq]

/-- C6 counterexample: in the 10-byte upload at address 0x1000 against
a transport answering 0xAA, the single data-chunk write (the fourth
transport operation) carries the 12 padded bytes, not 4: the claim that
the data chunk is 4 bytes fails on this concrete run. -/
theorem C6_counterexample_chunk_is_12_bytes :
    (uploadProgram img10 (some 0x1000) (some SUCCESS_CODE)).2[3]?
        = some (Event.write (img10 ++ [0, 0]))
    ∧ (img10 ++ [(0 : Byte), 0]).length = 12
    ∧ (img10 ++ [(0 : Byte), 0]).length ≠ 4 := by
  have hpad : padToWord img10 = img10 ++ [0, 0] := by
    rw [padToWord_eq_append]
    rfl
  have hdrop : (img10 ++ [(0 : Byte), 0]).drop CHUNK_SIZE = [] := by decide
  have hchunks : chunksOf (img10 ++ [0, 0]) = [img10 ++ [0, 0]] := by
    rw [chunksOf_pos _ (by decide), hdrop, chunksOf_nil]
    decide
  rw [uploadProgram_eq, hpad, hchunks]
  refine ⟨rfl, by decide, by decide⟩

/-- C6 amended: against a transport that answers 0xAA, uploading the
10-byte image img10 at load address 0x1000 reports success, and the
trace is exactly three 4-byte header frames (magic word, length = 12,
address = 0x1000) followed by one 12-byte data chunk (the 10 image
bytes plus two zero padding bytes) and the status read. -/
theorem C6_concrete_upload :
    uploadProgram img10 (some 0x1000) (some SUCCESS_CODE) =
      (true,
        [Event.write [0xEF, 0xBE, 0xAD, 0xDE],
         Event.write [0x0C, 0x00, 0x00, 0x00],
         Event.write [0x00, 0x10, 0x00, 0x00],
         Event.write (img10 ++ [0, 0]),
         Event.readStatus])
    ∧ (encodeU32LE MAGIC_WORD).length = 4
    ∧ (encodeU32LE 12).length = 4
    ∧ (encodeU32LE 0x1000).length = 4
    ∧ (img10 ++ [(0 : Byte), 0]).length = 12 := by
  have hpad : padToWord img10 = img10 ++ [0, 0] := by
    rw [padToWord_eq_append]
    rfl
  have hdrop : (img10 ++ [(0 : Byte), 0]).drop CHUNK_SIZE = [] := by decide
  have hchunks : chunksOf (img10 ++ [0, 0]) = [img10 ++ [0, 0]] := by
    rw [chunksOf_pos _ (by decide), hdrop, chunksOf_nil]
    decide
  rw [uploadProgram_eq, hpad, hchunks]
  refine ⟨by decide, by decide, by decide, by decide, by decide⟩

/-- C7: each protocol header frame is the 4-byte little-endian encoding
of its 32-bit value: the encoding always has 4 bytes, decodes back to
any value below 2^32, the magic-word frame is the fixed byte sequence
EF BE AD DE (little-endian 0xDEADBEEF), and the first three frames
written by upload_program are precisely the encodings of the magic
word, the padded length and the load address. -/
theorem C7_little_endian_frames (image : List Byte) (loadAddress : Option Nat)
    (resp : Option Byte) :
    encodeU32LE MAGIC_WORD = [0xEF, 0xBE, 0xAD, 0xDE]
    ∧ (∀ v : Nat, (encodeU32LE v).length = 4)
    ∧ (∀ v : Nat, v < 2 ^ 32 → decodeU32LE (encodeU32LE v) = v)
    ∧ (writesOf (uploadProgram image loadAddress resp).2).take 3 =
        [encodeU32LE MAGIC_WORD, encodeU32LE (padToWord image).length,
         encodeU32LE (loadAddress.getD DEFAULT_LOAD_ADDR)] := by
  refine ⟨by decide, fun v => rfl, ?_, ?_⟩
  · intro v hv
    simp only [encodeU32LE, decodeU32LE, natToByte]
    omega
  · rw [writesOf_trace]
    simp [List.take_succ_cons]

/-- C8: when the transport cannot be opened, main takes the distinct
connect-failure exit (reported before the upload is ever attempted) and
the transport trace is empty: no magic word, header or data bytes are
written, and the connect-failure result differs from every upload
result. -/
theorem C8_transport_unavailable (image : List Byte) (loadAddress : Option Nat)
    (resp : Option Byte) :
    runMain false image loadAddress resp = (SessionResult.transportUnavailable, [])
    ∧ writesOf (runMain false image loadAddress resp).2 = []
    ∧ (∀ ok : Bool, SessionResult.transportUnavailable ≠ SessionResult.uploadResult ok) := by
  refine ⟨rfl, rfl, ?_⟩
  intro ok
  cases ok
  · decide
  · decide

/-- C9 counterexample: the connectivity-test probe written by
test_connection is the 4-byte sequence AT CR LF, not a 2-byte probe:
the claim that exactly 2 bytes are written fails on the concrete
test-mode run. -/
theorem C9_counterexample_probe_is_4_bytes :
    (testConnection []).2 = [Event.write TEST_DATA, Event.readBytes 100]
    ∧ TEST_DATA.length = 4
    ∧ TEST_DATA.length ≠ 2 := by
  refine ⟨rfl, by decide, by decide⟩

/-- C9 amended: test_connection writes exactly the 4-byte probe AT CR
LF followed by one bounded read, and returns the positive verdict both
when reply bytes arrive and when the read times out cleanly with no
reply. -/
theorem C9_test_mode (response : List Byte) :
    (testConnection response).2 = [Event.write TEST_DATA, Event.readBytes 100]
    ∧ TEST_DATA.length = 4
    ∧ (testConnection response).1 = true
    ∧ (testConnection []).1 = true := by
  refine ⟨?_, by decide, ?_, by decide⟩
  · rw [testConnection]
    by_cases h : response.length > 0
    · rw [if_pos h]
    · rw [if_neg h]
  · rw [testConnection]
    by_cases h : response.length > 0
    · rw [if_pos h]
    · rw [if_neg h]

/-- C10: for an empty image the upload still sends the magic word, a
length frame encoding 0 and the address frame, sends no data chunk, and
send_program_data returns normally (some, not the division-by-zero
error that progressOf would give if it were ever evaluated with a
zero-length payload): the progress division is never reached. -/
theorem C10_empty_image (loadAddress : Option Nat) (resp : Option Byte) :
    progressOf 0 0 0 = none
    ∧ padToWord [] = []
    ∧ sendProgramData [] = some []
    ∧ (uploadProgram [] loadAddress resp).2 =
        [Event.write (encodeU32LE MAGIC_WORD), Event.write (encodeU32LE 0),
         Event.write (encodeU32LE (loadAddress.getD DEFAULT_LOAD_ADDR)),
         Event.readStatus]
    ∧ (uploadProgram [] loadAddress resp).1 = (waitForResponse resp).2 := by
  have hpad : padToWord [] = ([] : List Byte) := by
    rw [padToWord_eq_append]
    rfl
  refine ⟨rfl, hpad, ?_, ?_, ?_⟩
  · rw [sendProgramData_eq, chunksOf_nil]
    rfl
  · rw [uploadProgram_eq, hpad, chunksOf_nil]
    rfl
  · rw [uploadProgram_eq]

end MinCPU
